import Mathlib

/-
  Shallow embedding of `parse.py`: a batch driver that sends each PDF of a
  local directory to a Grobid server (`grobid_process_fulltext`) and writes
  per-paper output folders (`parse_pdfs_directory`).

  Modelling choices:
  * the file system is a map from paths (lists of components) to file
    contents; directories are not part of the state, their creation is
    recorded as an event;
  * the network is an oracle mapping the attempt number to the outcome of
    `requests.post` followed by `raise_for_status`: either a
    `RequestException` (connection error or HTTP status error, both are
    subclasses of `RequestException` and are treated identically by the
    code) carrying its repr, or the response body text;
  * every externally visible action (directory creation, HTTP POST, sleep,
    file write) is recorded in an event trace, in program order;
  * float durations are modelled as rationals.
-/

namespace Grobid

/-- A file-system path, as a list of components. -/
abbrev Path := List String

/-- The file system: contents of regular files, by path. -/
abbrev FS := List String → Option String

/-- Writing (or overwriting) one file. -/
def setFS (fs : FS) (p : Path) (s : String) : FS :=
  fun q => if q = p then some s else fs q

/-- Outcome of one HTTP attempt: `requests.post` plus `resp.raise_for_status()`.
`reqError` covers every `RequestException` (connection errors, timeouts, and
the `HTTPError` raised by `raise_for_status`); the string is the repr of the
exception. `response` is a 2xx answer with its body text. -/
inductive Outcome where
  | reqError : String → Outcome
  | response : String → Outcome

/-- How a modelled Python call terminates: normally, or raising a
`RequestException`, or raising a `ValueError`. -/
inductive PyResult where
  | ok : PyResult
  | requestException : String → PyResult
  | valueError : String → PyResult
deriving DecidableEq

/-- Externally visible actions, in program order. -/
inductive Event where
  | mkdirP : Path → Event
  | post : Path → Event
  | sleep : ℚ → Event
  | write : Path → String → Event
deriving DecidableEq

/-- Python `str.strip()`: drop whitespace from both ends. -/
def pyStrip (s : String) : String :=
  String.mk (((s.data.dropWhile Char.isWhitespace).reverse.dropWhile
    Char.isWhitespace).reverse)

/-- The sanity check of `grobid_process_fulltext`:
`if not text or "<TEI" not in text`. -/
def badTEI (t : String) : Bool :=
  decide (t = "") || !(decide ("<TEI".data <:+: t.data))

/-- The `ValueError` message used by `grobid_process_fulltext`. -/
def teiMsg : String := "Grobid returned empty or non-TEI response"

/-- The retry loop `for attempt in range(1, retries + 1)` of
`grobid_process_fulltext`, over the remaining list of attempt numbers.
Each iteration posts the PDF; on a `RequestException` it sleeps
`backoff * attempt` and continues when `attempt < retries`, otherwise
re-raises; on a response it strips the body, raises `ValueError` when the
text is empty or lacks `"<TEI"`, and otherwise writes the text to
`outp` and returns. Falling off the list returns `None`. -/
def grobidGo (oracle : ℕ → Outcome) (pdf outp : Path) (retries : ℕ)
    (backoff : ℚ) : List ℕ → FS → PyResult × FS × List Event
  | [], fs => (.ok, fs, [])
  | attempt :: rest, fs =>
    match oracle attempt with
    | .reqError m =>
      if attempt < retries then
        let r := grobidGo oracle pdf outp retries backoff rest fs
        (r.1, r.2.1, Event.post pdf :: Event.sleep (backoff * attempt) :: r.2.2)
      else (.requestException m, fs, [Event.post pdf])
    | .response t =>
      let text := pyStrip t
      if badTEI text then (.valueError teiMsg, fs, [Event.post pdf])
      else (.ok, setFS fs outp text, [Event.post pdf, Event.write outp text])

/-- `grobid_process_fulltext(pdf_path, output_xml_path, retries, backoff)`:
creates the parent directory of the output file, then runs the retry loop
over attempts `1 .. retries`. -/
def grobid_process_fulltext (oracle : ℕ → Outcome) (pdf outp : Path)
    (retries : ℕ) (backoff : ℚ) (fs : FS) : PyResult × FS × List Event :=
  let r := grobidGo oracle pdf outp retries backoff (List.range' 1 retries) fs
  (r.1, r.2.1, Event.mkdirP outp.dropLast :: r.2.2)

/-- Whether an event is an HTTP POST to the parsing service. -/
def isPost : Event → Bool
  | .post _ => true
  | _ => false

/-- Number of HTTP POSTs in a trace. -/
def numPosts (tr : List Event) : ℕ := tr.countP isPost

/-- The trace of `n` consecutive failed attempts starting at attempt `a`,
each followed by its linear-backoff sleep. -/
def failTrail (pdf : Path) (backoff : ℚ) : ℕ → ℕ → List Event
  | _, 0 => []
  | a, n + 1 =>
    Event.post pdf :: Event.sleep (backoff * a) :: failTrail pdf backoff (a + 1) n

/-- Index of the last occurrence of a dot in a list of characters
(Python `str.rfind`, as an `Option`). -/
def lastDotIdx : List Char → Option ℕ
  | [] => none
  | c :: cs =>
    match lastDotIdx cs with
    | some i => some (i + 1)
    | none => if c = '.' then some 0 else none

/-- Python `pathlib.PurePath.stem`: with `i = name.rfind(".")`, the stem is
`name[:i]` when `0 < i < len(name) - 1` and `name` otherwise. -/
def stem (name : String) : String :=
  match lastDotIdx name.data with
  | some i =>
    if 0 < i ∧ i + 1 < name.data.length then String.mk (name.data.take i) else name
  | none => name

/-- `input_dir.glob("*.pdf")` keeps names ending in `.pdf`
(`fnmatch` translates `*.pdf` to a regex that also matches names whose
stem part is empty or dotted). -/
def matchesPdf (name : String) : Bool :=
  decide (".pdf".data <:+ name.data)

/-- Code-point comparison of strings, as in Python. -/
def strLtChars : List Char → List Char → Bool
  | [], [] => false
  | [], _ :: _ => true
  | _ :: _, [] => false
  | a :: as, b :: bs =>
    if a.toNat < b.toNat then true
    else if b.toNat < a.toNat then false
    else strLtChars as bs

/-- `a ≤ b` on strings by code point. -/
def strLe (a b : String) : Bool := !(strLtChars b.data a.data)

/-- Insertion into a sorted list of names. -/
def insertName (x : String) : List String → List String
  | [] => [x]
  | y :: ys => if strLe x y then x :: y :: ys else y :: insertName x ys

/-- Python `sorted` on file names (insertion sort by code point). -/
def sortNames : List String → List String
  | [] => []
  | x :: xs => insertName x (sortNames xs)

/-- `paper_dir = output_root / folder_name` where `folder_name = pdf_path.stem`. -/
def paperDir (oroot : Path) (name : String) : Path := oroot ++ [stem name]

/-- `tei_path = paper_dir / (folder_name + ".tei.xml")`. -/
def teiPath (oroot : Path) (name : String) : Path :=
  paperDir oroot name ++ [stem name ++ ".tei.xml"]

/-- `meta_path = paper_dir / "meta.json"`. -/
def metaPath (oroot : Path) (name : String) : Path :=
  paperDir oroot name ++ ["meta.json"]

/-- `error_log_path = output_root / "grobid_errors_local.json"`. -/
def errLogPath (oroot : Path) : Path := oroot ++ ["grobid_errors_local.json"]

/-- `str(path)`: components joined by slashes. -/
def pathStr (p : Path) : String := String.intercalate "/" p

/-- JSON string escaping (quotes and backslashes). -/
def jsonEscape (s : String) : String :=
  String.mk (s.data.foldr
    (fun c acc => (if c = '"' ∨ c = '\\' then ['\\', c] else [c]) ++ acc) [])

/-- `safe_title`: `raw_title.strip()`. -/
def safe_title (raw_title : String) : String := pyStrip raw_title

/-- The `meta.json` body: `json.dump(meta, indent=2, ensure_ascii=False)` of
the dict built in `parse_pdfs_directory`. -/
def metaJson (paperId title srcPath : String) : String :=
  "\x7b\n  \"paper_id\": \"" ++ jsonEscape paperId ++
    "\",\n  \"forum\": \"\",\n  \"title\": \"" ++ jsonEscape title ++
    "\",\n  \"pdf_url\": \"\",\n  \"source_path\": \"" ++ jsonEscape srcPath ++
    "\"\n\x7d"

/-- Python `repr(e)` for the exceptions of the model: the oracle already
carries the repr of a `RequestException`; the `ValueError` is raised by the
code itself with a fixed message. -/
def reprExn : PyResult → String
  | .ok => "None"
  | .requestException m => m
  | .valueError m => "ValueError(\x27" ++ m ++ "\x27)"

/-- One entry of the error log: the tuple `(idx, folder_name, repr(e))`
rendered by `json.dump(..., indent=2)`. -/
def errEntry (e : ℕ × String × String) : String :=
  "[\n      " ++ Nat.repr e.1 ++ ",\n      \"" ++ jsonEscape e.2.1 ++
    "\",\n      \"" ++ jsonEscape e.2.2 ++ "\"\n    ]"

/-- The error log body: `json.dump({"parse_errors": errors_parse}, indent=2)`. -/
def errorsJson (errs : List (ℕ × String × String)) : String :=
  "\x7b\n  \"parse_errors\": [\n    " ++
    String.intercalate ",\n    " (errs.map errEntry) ++ "\n  ]\n\x7d"

/-- The body of the `for idx, pdf_path in enumerate(...)` loop of
`parse_pdfs_directory` for one item `(idx, name)`: run Grobid with the
default `retries=3, backoff=5.0`; on success optionally sleep `gsleep` and
write `meta.json` when absent; on any exception record
`(idx, folder_name, repr(e))`. -/
def itemStep (oracle : String → ℕ → Outcome) (gsleep : ℚ) (idir oroot : Path)
    (fs : FS) (it : ℕ × String) : FS × List Event × Option (ℕ × String × String) :=
  let folder := stem it.2
  let pdf := idir ++ [it.2]
  let r := grobid_process_fulltext (oracle it.2) pdf (teiPath oroot it.2) 3 5 fs
  match r.1 with
  | .ok =>
    let sl : List Event := if 0 < gsleep then [Event.sleep gsleep] else []
    match r.2.1 (metaPath oroot it.2) with
    | some _ => (r.2.1, r.2.2 ++ sl, none)
    | none =>
      let content := metaJson folder (safe_title folder) (pathStr pdf)
      (setFS r.2.1 (metaPath oroot it.2) content,
        r.2.2 ++ sl ++
          [Event.mkdirP (paperDir oroot it.2), Event.write (metaPath oroot it.2) content],
        none)
  | e => (r.2.1, r.2.2, some (it.1, folder, reprExn e))

/-- The whole loop of `parse_pdfs_directory`, threading the file system and
accumulating the trace and the error list in program order. -/
def runItems (oracle : String → ℕ → Outcome) (gsleep : ℚ) (idir oroot : Path) :
    List (ℕ × String) → FS → FS × List Event × List (ℕ × String × String)
  | [], fs => (fs, [], [])
  | it :: rest, fs =>
    let s := itemStep oracle gsleep idir oroot fs it
    let r := runItems oracle gsleep idir oroot rest s.1
    (r.1, s.2.1 ++ r.2.1, match s.2.2 with | some e => e :: r.2.2 | none => r.2.2)

/-- The per-item traces of the loop, in processing order. -/
def itemTraces (oracle : String → ℕ → Outcome) (gsleep : ℚ) (idir oroot : Path) :
    List (ℕ × String) → FS → List (List Event)
  | [], _ => []
  | it :: rest, fs =>
    (itemStep oracle gsleep idir oroot fs it).2.1 ::
      itemTraces oracle gsleep idir oroot rest (itemStep oracle gsleep idir oroot fs it).1

/-- `parse_pdfs_directory(input_dir, output_root)`: make the output root,
enumerate `sorted(input_dir.glob("*.pdf"))` (returning early when empty),
process the items one at a time, and finally write the error log when any
item failed. `names` is the directory listing of `input_dir`; `gsleep` is
the `GROBID_SLEEP` environment value. -/
def parse_pdfs_directory (oracle : String → ℕ → Outcome) (gsleep : ℚ)
    (names : List String) (idir oroot : Path) (fs : FS) : FS × List Event :=
  let pdfs := sortNames (names.filter matchesPdf)
  if pdfs.isEmpty then (fs, [Event.mkdirP oroot])
  else
    let r := runItems oracle gsleep idir oroot (List.enumFrom 1 pdfs) fs
    if r.2.2.isEmpty then (r.1, Event.mkdirP oroot :: r.2.1)
    else
      (setFS r.1 (errLogPath oroot) (errorsJson r.2.2),
        Event.mkdirP oroot :: r.2.1 ++ [Event.write (errLogPath oroot) (errorsJson r.2.2)])

/-- The termination status of a `grobid_process_fulltext` call depends only
on the oracle and the number of retries; this is that status, computed at
dummy paths and an empty file system. -/
def grobidResult (oracle : ℕ → Outcome) (retries : ℕ) : PyResult :=
  (grobid_process_fulltext oracle [] [] retries 0 (fun _ => none)).1

/-- The per-item outcome recorded in `errors_parse`, as a function of the
oracle alone. -/
def itemErr (oracle : String → ℕ → Outcome) (it : ℕ × String) :
    Option (ℕ × String × String) :=
  match grobidResult (oracle it.2) 3 with
  | .ok => none
  | e => some (it.1, stem it.2, reprExn e)

/-- In a trace, every file write is preceded by some HTTP POST. -/
def postsBeforeWrites (tr : List Event) : Prop :=
  ∀ l p s r, tr = l ++ Event.write p s :: r → ∃ q, Event.post q ∈ l

/-- The empty file system, for concrete runs. -/
def fs0 : FS := fun _ => none

/-- Oracle for a run where the first attempt hits a network error and the
second succeeds. -/
def retryOracle : String → ℕ → Outcome := fun _ j =>
  if j = 1 then .reqError "boom" else .response "<TEI>ok</TEI>"

/-- Oracle for a run where `a.pdf` gets a non-TEI body and `b.pdf` a good one. -/
def mixedOracle : String → ℕ → Outcome := fun name _ =>
  if name = "a.pdf" then .response "nope" else .response "<TEI>b</TEI>"

/-- Oracle answering every item with a good TEI body that names the item. -/
def namedOracle : String → ℕ → Outcome := fun name _ =>
  .response (if name = ".pdf" then "<TEI>A</TEI>" else "<TEI>B</TEI>")

theorem badTEI_eq_false (t : String) :
    badTEI t = false ↔ t ≠ "" ∧ "<TEI".data <:+: t.data := by
  simp [badTEI]

theorem grobidGo_posts_le (oracle : ℕ → Outcome) (pdf outp : Path) (retries : ℕ)
    (backoff : ℚ) : ∀ (l : List ℕ) (fs : FS),
    numPosts (grobidGo oracle pdf outp retries backoff l fs).2.2 ≤ l.length := by
  intro l
  induction l with
  | nil => intro fs; simp [grobidGo, numPosts]
  | cons a rest ih =>
    intro fs
    simp only [grobidGo]
    rcases h : oracle a with m | t
    · by_cases hlt : a < retries
      · have hr := ih fs
        simp only [if_pos hlt]
        simp [numPosts, List.countP_cons, isPost, List.length_cons] at hr ⊢
        omega
      · simp [if_neg hlt, numPosts, isPost, List.countP_cons]
    · by_cases hb : badTEI (pyStrip t)
      · simp [hb, numPosts, isPost, List.countP_cons]
      · simp [hb, numPosts, isPost, List.countP_cons]

theorem grobidGo_shape (oracle : ℕ → Outcome) (pdf outp : Path) (retries : ℕ)
    (backoff : ℚ) : ∀ (l : List ℕ) (fs : FS),
    (grobidGo oracle pdf outp retries backoff l fs).2.2 = [] ∨
      ∃ rest, (grobidGo oracle pdf outp retries backoff l fs).2.2 =
        Event.post pdf :: rest := by
  intro l
  induction l with
  | nil => intro fs; left; simp [grobidGo]
  | cons a rest ih =>
    intro fs
    simp only [grobidGo]
    rcases h : oracle a with m | t
    · by_cases hlt : a < retries
      · right; simp [if_pos hlt]
      · right; simp [if_neg hlt]
    · by_cases hb : badTEI (pyStrip t)
      · right; simp [hb]
      · right; simp [hb]

theorem grobidGo_writes (oracle : ℕ → Outcome) (pdf outp : Path) (retries : ℕ)
    (backoff : ℚ) : ∀ (l : List ℕ) (fs : FS) (p : Path) (s : String),
    Event.write p s ∈ (grobidGo oracle pdf outp retries backoff l fs).2.2 →
      p = outp ∧ badTEI s = false := by
  intro l
  induction l with
  | nil => intro fs p s h; simp [grobidGo] at h
  | cons a rest ih =>
    intro fs p s h
    simp only [grobidGo] at h
    rcases ho : oracle a with m | t <;> simp only [ho] at h
    · by_cases hlt : a < retries
      · simp only [if_pos hlt, List.mem_cons] at h
        rcases h with h | h | h
        · exact absurd h (by simp)
        · exact absurd h (by simp)
        · exact ih fs p s h
      · simp [if_neg hlt] at h
    · cases hb : badTEI (pyStrip t) with
      | true => simp [hb] at h
      | false =>
        simp only [hb, Bool.false_eq_true, if_false, List.mem_cons] at h
        rcases h with h | h | h
        · exact absurd h (by simp)
        · rw [Event.write.injEq] at h
          exact ⟨h.1, h.2 ▸ hb⟩
        · simp at h

theorem grobidGo_notok (oracle : ℕ → Outcome) (pdf outp : Path) (retries : ℕ)
    (backoff : ℚ) : ∀ (l : List ℕ) (fs : FS),
    (grobidGo oracle pdf outp retries backoff l fs).1 ≠ .ok →
      (grobidGo oracle pdf outp retries backoff l fs).2.1 = fs ∧
      ∀ p s, Event.write p s ∉ (grobidGo oracle pdf outp retries backoff l fs).2.2 := by
  intro l
  induction l with
  | nil => intro fs h; simp [grobidGo] at h
  | cons a rest ih =>
    intro fs h
    simp only [grobidGo] at h ⊢
    rcases ho : oracle a with m | t <;> simp only [ho] at h ⊢
    · by_cases hlt : a < retries
      · simp only [if_pos hlt] at h ⊢
        have := ih fs h
        refine ⟨this.1, ?_⟩
        intro p s hm
        simp only [List.mem_cons] at hm
        rcases hm with hm | hm | hm
        · exact absurd hm (by simp)
        · exact absurd hm (by simp)
        · exact this.2 p s hm
      · simp [if_neg hlt]
    · by_cases hb : badTEI (pyStrip t)
      · simp [hb]
      · simp [hb] at h

theorem grobidGo_frame (oracle : ℕ → Outcome) (pdf outp : Path) (retries : ℕ)
    (backoff : ℚ) : ∀ (l : List ℕ) (fs : FS) (q : Path), q ≠ outp →
    (grobidGo oracle pdf outp retries backoff l fs).2.1 q = fs q := by
  intro l
  induction l with
  | nil => intro fs q hq; simp [grobidGo]
  | cons a rest ih =>
    intro fs q hq
    simp only [grobidGo]
    rcases ho : oracle a with m | t
    · by_cases hlt : a < retries
      · simp only [if_pos hlt]
        exact ih fs q hq
      · simp [if_neg hlt]
    · by_cases hb : badTEI (pyStrip t)
      · simp [hb]
      · simp [hb, setFS, if_neg hq]

theorem grobidGo_result_congr (oracle : ℕ → Outcome) (retries : ℕ) :
    ∀ (l : List ℕ) (pdf outp pdf2 outp2 : Path) (backoff backoff2 : ℚ)
      (fs fs2 : FS),
    (grobidGo oracle pdf outp retries backoff l fs).1 =
      (grobidGo oracle pdf2 outp2 retries backoff2 l fs2).1 := by
  intro l
  induction l with
  | nil => intro pdf outp pdf2 outp2 backoff backoff2 fs fs2; simp [grobidGo]
  | cons a rest ih =>
    intro pdf outp pdf2 outp2 backoff backoff2 fs fs2
    simp only [grobidGo]
    rcases ho : oracle a with m | t
    · by_cases hlt : a < retries
      · simp only [if_pos hlt]
        exact ih pdf outp pdf2 outp2 backoff backoff2 fs fs2
      · simp [if_neg hlt]
    · by_cases hb : badTEI (pyStrip t)
      · simp [hb]
      · simp [hb]

theorem grobid_result_eq (oracle : ℕ → Outcome) (pdf outp : Path) (retries : ℕ)
    (backoff : ℚ) (fs : FS) :
    (grobid_process_fulltext oracle pdf outp retries backoff fs).1 =
      grobidResult oracle retries := by
  simp only [grobid_process_fulltext, grobidResult]
  exact grobidGo_result_congr oracle retries (List.range' 1 retries)
    pdf outp [] [] backoff 0 fs (fun _ => none)

theorem grobidGo_skip (oracle : ℕ → Outcome) (pdf outp : Path) (retries : ℕ)
    (backoff : ℚ) :
    ∀ (k a : ℕ) (rest : List ℕ) (fs : FS), a + k ≤ retries →
    (∀ j, a ≤ j → j < a + k → ∃ m, oracle j = .reqError m) →
    grobidGo oracle pdf outp retries backoff (List.range' a k ++ rest) fs =
      ((grobidGo oracle pdf outp retries backoff rest fs).1,
       (grobidGo oracle pdf outp retries backoff rest fs).2.1,
       failTrail pdf backoff a k ++
         (grobidGo oracle pdf outp retries backoff rest fs).2.2) := by
  intro k
  induction k with
  | zero =>
    intro a rest fs h1 h2
    simp [failTrail]
  | succ k ih =>
    intro a rest fs h1 h2
    obtain ⟨m, hm⟩ := h2 a (le_refl a) (by omega)
    rw [List.range'_succ a k 1]
    simp only [List.cons_append, List.append_eq, grobidGo, hm,
      if_pos (show a < retries by omega)]
    rw [ih (a + 1) rest fs (by omega) (fun j hj1 hj2 => h2 j (by omega) (by omega))]
    simp [failTrail]

theorem grobid_allFail (oracle : ℕ → Outcome) (pdf outp : Path) (retries : ℕ)
    (backoff : ℚ) (fs : FS) (mlast : String) (hr : 1 ≤ retries)
    (hf : ∀ j, 1 ≤ j → j < retries → ∃ m, oracle j = .reqError m)
    (hlast : oracle retries = .reqError mlast) :
    grobid_process_fulltext oracle pdf outp retries backoff fs =
      (.requestException mlast, fs,
        Event.mkdirP outp.dropLast ::
          (failTrail pdf backoff 1 (retries - 1) ++ [Event.post pdf])) := by
  have hsplit : List.range' 1 retries = List.range' 1 (retries - 1) ++ [retries] := by
    have h := List.range'_1_concat 1 (retries - 1)
    rw [show (retries - 1) + 1 = retries by omega,
      show 1 + (retries - 1) = retries by omega] at h
    exact h
  have hrest : grobidGo oracle pdf outp retries backoff [retries] fs =
      (.requestException mlast, fs, [Event.post pdf]) := by
    simp [grobidGo, hlast]
  have hskip := grobidGo_skip oracle pdf outp retries backoff (retries - 1) 1
    [retries] fs (by omega) (fun j hj1 hj2 => hf j hj1 (by omega))
  simp only [grobid_process_fulltext, hsplit, hskip, hrest]

theorem grobid_badStop (oracle : ℕ → Outcome) (pdf outp : Path) (retries : ℕ)
    (backoff : ℚ) (fs : FS) (a : ℕ) (r : String) (h1 : 1 ≤ a) (h2 : a ≤ retries)
    (hf : ∀ j, 1 ≤ j → j < a → ∃ m, oracle j = .reqError m)
    (hresp : oracle a = .response r) (hbad : badTEI (pyStrip r) = true) :
    grobid_process_fulltext oracle pdf outp retries backoff fs =
      (.valueError teiMsg, fs,
        Event.mkdirP outp.dropLast ::
          (failTrail pdf backoff 1 (a - 1) ++ [Event.post pdf])) := by
  have hsplit : List.range' 1 retries =
      List.range' 1 (a - 1) ++ (a :: List.range' (a + 1) (retries - a)) := by
    have h3 := List.range'_succ a (retries - a) 1
    have h4 := List.range'_append 1 (a - 1) (retries - a + 1) 1
    rw [show 1 + 1 * (a - 1) = a by omega,
      show (retries - a + 1) + (a - 1) = retries by omega] at h4
    rw [← h4, h3]
  have hrest : grobidGo oracle pdf outp retries backoff
      (a :: List.range' (a + 1) (retries - a)) fs =
      (.valueError teiMsg, fs, [Event.post pdf]) := by
    simp [grobidGo, hresp, hbad]
  have hskip := grobidGo_skip oracle pdf outp retries backoff (a - 1) 1
    (a :: List.range' (a + 1) (retries - a)) fs (by omega)
    (fun j hj1 hj2 => hf j hj1 (by omega))
  simp only [grobid_process_fulltext, hsplit, hskip, hrest]

theorem failTrail_no_writes (pdf : Path) (backoff : ℚ) :
    ∀ (n a : ℕ) (p : Path) (s : String),
      Event.write p s ∉ failTrail pdf backoff a n := by
  intro n
  induction n with
  | zero => intro a p s; simp [failTrail]
  | succ n ih =>
    intro a p s
    simp only [failTrail, List.mem_cons]
    push_neg
    exact ⟨by simp, by simp, ih (a + 1) p s⟩

theorem failTrail_numPosts (pdf : Path) (backoff : ℚ) :
    ∀ (n a : ℕ), numPosts (failTrail pdf backoff a n) = n := by
  intro n
  induction n with
  | zero => intro a; simp [failTrail, numPosts]
  | succ n ih =>
    intro a
    have h := ih (a + 1)
    simp only [numPosts] at h
    simp [failTrail, numPosts, List.countP_cons, isPost, h]

theorem tei_ne_meta (s : String) : s ++ ".tei.xml" ≠ "meta.json" := by
  intro h
  have hlen := congrArg String.length h
  rw [String.length_append] at hlen
  have h8 : (".tei.xml" : String).length = 8 := rfl
  have h9 : ("meta.json" : String).length = 9 := rfl
  rw [h8, h9] at hlen
  have hs1 : s.data.length = 1 := by
    have hsl : s.length = 1 := by omega
    exact hsl
  obtain ⟨c, hc⟩ := List.length_eq_one.mp hs1
  have hdata := congrArg String.data h
  rw [String.data_append, hc, List.singleton_append] at hdata
  have htail := congrArg List.tail hdata
  simp only [List.tail_cons] at htail
  exact absurd htail (by decide)

theorem teiPath_ne_metaPath (oroot : Path) (n1 n2 : String) :
    teiPath oroot n1 ≠ metaPath oroot n2 := by
  intro h
  simp only [teiPath, metaPath, paperDir, List.append_assoc] at h
  have h2 := List.append_cancel_left h
  simp only [List.singleton_append, List.cons.injEq] at h2
  exact tei_ne_meta (stem n1) (by simpa using h2.2.1)

theorem metaPath_ne_errLogPath (oroot : Path) (n : String) :
    metaPath oroot n ≠ errLogPath oroot := by
  intro h
  have hlen := congrArg List.length h
  simp [metaPath, errLogPath, paperDir] at hlen

theorem teiPath_ne_errLogPath (oroot : Path) (n : String) :
    teiPath oroot n ≠ errLogPath oroot := by
  intro h
  have hlen := congrArg List.length h
  simp [teiPath, errLogPath, paperDir] at hlen

theorem grobid3_ok (o : ℕ → Outcome) (pdf outp : Path) (backoff : ℚ) (fs : FS)
    (h : (grobid_process_fulltext o pdf outp 3 backoff fs).1 = .ok) :
    ∃ r, (o 1 = .response r ∨ o 2 = .response r ∨ o 3 = .response r) ∧
      badTEI (pyStrip r) = false ∧
      (grobid_process_fulltext o pdf outp 3 backoff fs).2.1 outp = some (pyStrip r) ∧
      Event.post pdf ∈ (grobid_process_fulltext o pdf outp 3 backoff fs).2.2 ∧
      Event.write outp (pyStrip r) ∈
        (grobid_process_fulltext o pdf outp 3 backoff fs).2.2 := by
  have hrange : List.range' 1 3 = [1, 2, 3] := rfl
  simp only [grobid_process_fulltext, hrange] at h ⊢
  rcases h1 : o 1 with m1 | t1
  · rcases h2 : o 2 with m2 | t2
    · rcases h3 : o 3 with m3 | t3
      · simp [grobidGo, h1, h2, h3] at h
      · cases hb : badTEI (pyStrip t3) with
        | true => simp [grobidGo, h1, h2, h3, hb] at h
        | false =>
          exact ⟨t3, Or.inr (Or.inr rfl), hb,
            by simp [grobidGo, h1, h2, h3, hb, setFS],
            by simp [grobidGo, h1, h2, h3, hb],
            by simp [grobidGo, h1, h2, h3, hb]⟩
    · cases hb : badTEI (pyStrip t2) with
      | true => simp [grobidGo, h1, h2, hb] at h
      | false =>
        exact ⟨t2, Or.inr (Or.inl rfl), hb,
          by simp [grobidGo, h1, h2, hb, setFS],
          by simp [grobidGo, h1, h2, hb],
          by simp [grobidGo, h1, h2, hb]⟩
  · cases hb : badTEI (pyStrip t1) with
    | true => simp [grobidGo, h1, hb] at h
    | false =>
      exact ⟨t1, Or.inl rfl, hb,
        by simp [grobidGo, h1, hb, setFS],
        by simp [grobidGo, h1, hb],
        by simp [grobidGo, h1, hb]⟩

theorem pbw_nil : postsBeforeWrites [] := by
  intro l p s r h
  exact absurd h.symm (by simp)

theorem pbw_cons_post (q : Path) (tr : List Event) :
    postsBeforeWrites (Event.post q :: tr) := by
  intro l p s r h
  cases l with
  | nil => simp at h
  | cons e l' =>
    rw [List.cons_append, List.cons.injEq] at h
    exact ⟨q, h.1 ▸ List.mem_cons_self (Event.post q) l'⟩

theorem pbw_cons_other (e : Event) (tr : List Event)
    (he : ∀ p s, e ≠ Event.write p s) (h : postsBeforeWrites tr) :
    postsBeforeWrites (e :: tr) := by
  intro l p s r hl
  cases l with
  | nil =>
    simp only [List.nil_append, List.cons.injEq] at hl
    exact absurd hl.1 (he p s)
  | cons e0 l' =>
    rw [List.cons_append, List.cons.injEq] at hl
    obtain ⟨q, hq⟩ := h l' p s r hl.2
    exact ⟨q, List.mem_cons_of_mem _ hq⟩

theorem pbw_append (g m : List Event) (hg : postsBeforeWrites g)
    (hm : ∀ p s, Event.write p s ∈ m → ∃ q, Event.post q ∈ g) :
    postsBeforeWrites (g ++ m) := by
  intro l p s r h
  rcases List.append_eq_append_iff.mp h with ⟨a2, hc, hd⟩ | ⟨c2, hc, hd⟩
  · obtain ⟨q, hq⟩ := hm p s (by rw [hd]; simp)
    exact ⟨q, hc ▸ List.mem_append_left a2 hq⟩
  · cases c2 with
    | nil =>
      simp only [List.append_nil] at hc
      simp only [List.nil_append] at hd
      obtain ⟨q, hq⟩ := hm p s (by rw [← hd]; simp)
      exact ⟨q, hc ▸ hq⟩
    | cons e c2' =>
      rw [List.cons_append, List.cons.injEq] at hd
      obtain ⟨q, hq⟩ := hg l p s c2' (by rw [hc, hd.1])
      exact ⟨q, hq⟩

theorem grobidGo_pbw (oracle : ℕ → Outcome) (pdf outp : Path) (retries : ℕ)
    (backoff : ℚ) (l : List ℕ) (fs : FS) :
    postsBeforeWrites (grobidGo oracle pdf outp retries backoff l fs).2.2 := by
  rcases grobidGo_shape oracle pdf outp retries backoff l fs with h | ⟨rest, h⟩
  · rw [h]; exact pbw_nil
  · rw [h]; exact pbw_cons_post pdf rest

theorem grobid_pbw (oracle : ℕ → Outcome) (pdf outp : Path) (retries : ℕ)
    (backoff : ℚ) (fs : FS) :
    postsBeforeWrites
      (grobid_process_fulltext oracle pdf outp retries backoff fs).2.2 := by
  simp only [grobid_process_fulltext]
  exact pbw_cons_other _ _ (by simp) (grobidGo_pbw oracle pdf outp retries backoff _ fs)

theorem grobid_writes (oracle : ℕ → Outcome) (pdf outp : Path) (retries : ℕ)
    (backoff : ℚ) (fs : FS) (p : Path) (s : String)
    (h : Event.write p s ∈
      (grobid_process_fulltext oracle pdf outp retries backoff fs).2.2) :
    p = outp ∧ badTEI s = false := by
  simp only [grobid_process_fulltext, List.mem_cons] at h
  rcases h with h | h
  · exact absurd h (by simp)
  · exact grobidGo_writes oracle pdf outp retries backoff _ fs p s h

theorem sl_no_writes (gsleep : ℚ) (p : Path) (s : String) :
    Event.write p s ∉ (if 0 < gsleep then [Event.sleep gsleep] else []) := by
  split_ifs <;> simp

theorem itemStep_pbw (oracle : String → ℕ → Outcome) (gsleep : ℚ)
    (idir oroot : Path) (fs : FS) (it : ℕ × String) :
    postsBeforeWrites (itemStep oracle gsleep idir oroot fs it).2.1 := by
  simp only [itemStep]
  rcases hres : (grobid_process_fulltext (oracle it.2) (idir ++ [it.2])
      (teiPath oroot it.2) 3 5 fs).1 with _ | m | m
  · rcases hmeta : (grobid_process_fulltext (oracle it.2) (idir ++ [it.2])
        (teiPath oroot it.2) 3 5 fs).2.1 (metaPath oroot it.2) with _ | c
    · simp only [hres, hmeta]
      obtain ⟨r, _, _, _, hpost, _⟩ :=
        grobid3_ok (oracle it.2) (idir ++ [it.2]) (teiPath oroot it.2) 5 fs hres
      refine pbw_append _ _ ?_ ?_
      · exact pbw_append _ _ (grobid_pbw _ _ _ _ _ _)
          (fun p s hm => absurd hm (sl_no_writes gsleep p s))
      · intro p s _
        exact ⟨idir ++ [it.2], List.mem_append_left _ hpost⟩
    · simp only [hres, hmeta]
      exact pbw_append _ _ (grobid_pbw _ _ _ _ _ _)
        (fun p s hm => absurd hm (sl_no_writes gsleep p s))
  · simp only [hres]
    exact grobid_pbw _ _ _ _ _ _
  · simp only [hres]
    exact grobid_pbw _ _ _ _ _ _

theorem itemTraces_pbw (oracle : String → ℕ → Outcome) (gsleep : ℚ)
    (idir oroot : Path) :
    ∀ (l : List (ℕ × String)) (fs : FS),
      ∀ tr ∈ itemTraces oracle gsleep idir oroot l fs, postsBeforeWrites tr := by
  intro l
  induction l with
  | nil => intro fs tr h; simp [itemTraces] at h
  | cons it rest ih =>
    intro fs tr h
    simp only [itemTraces, List.mem_cons] at h
    rcases h with h | h
    · rw [h]; exact itemStep_pbw oracle gsleep idir oroot fs it
    · exact ih _ tr h

theorem runItems_trace (oracle : String → ℕ → Outcome) (gsleep : ℚ)
    (idir oroot : Path) :
    ∀ (l : List (ℕ × String)) (fs : FS),
      (runItems oracle gsleep idir oroot l fs).2.1 =
        (itemTraces oracle gsleep idir oroot l fs).flatten := by
  intro l
  induction l with
  | nil => intro fs; simp [runItems, itemTraces]
  | cons it rest ih => intro fs; simp [runItems, itemTraces, ih]

theorem itemStep_err (oracle : String → ℕ → Outcome) (gsleep : ℚ)
    (idir oroot : Path) (fs : FS) (it : ℕ × String) :
    (itemStep oracle gsleep idir oroot fs it).2.2 = itemErr oracle it := by
  simp only [itemStep, itemErr]
  rw [grobid_result_eq]
  rcases hres : grobidResult (oracle it.2) 3 with _ | m | m
  · rcases hmeta : (grobid_process_fulltext (oracle it.2) (idir ++ [it.2])
        (teiPath oroot it.2) 3 5 fs).2.1 (metaPath oroot it.2) with _ | c <;>
      simp [hmeta]
  · rfl
  · rfl

theorem runItems_errs (oracle : String → ℕ → Outcome) (gsleep : ℚ)
    (idir oroot : Path) :
    ∀ (l : List (ℕ × String)) (fs : FS),
      (runItems oracle gsleep idir oroot l fs).2.2 =
        l.filterMap (itemErr oracle) := by
  intro l
  induction l with
  | nil => intro fs; simp [runItems]
  | cons it rest ih =>
    intro fs
    simp only [runItems, ih, List.filterMap_cons, itemStep_err]
    rcases h : itemErr oracle it with _ | e <;> simp

theorem itemStep_writes (oracle : String → ℕ → Outcome) (gsleep : ℚ)
    (idir oroot : Path) (fs : FS) (it : ℕ × String) (p : Path) (s : String)
    (h : Event.write p s ∈ (itemStep oracle gsleep idir oroot fs it).2.1) :
    p = teiPath oroot it.2 ∨ p = metaPath oroot it.2 := by
  simp only [itemStep] at h
  rcases hres : (grobid_process_fulltext (oracle it.2) (idir ++ [it.2])
      (teiPath oroot it.2) 3 5 fs).1 with _ | m | m
  · rcases hmeta : (grobid_process_fulltext (oracle it.2) (idir ++ [it.2])
        (teiPath oroot it.2) 3 5 fs).2.1 (metaPath oroot it.2) with _ | c
    · simp only [hres, hmeta] at h
      rcases List.mem_append.mp h with h | h
      · rcases List.mem_append.mp h with h | h
        · exact Or.inl (grobid_writes _ _ _ _ _ _ p s h).1
        · exact absurd h (sl_no_writes gsleep p s)
      · simp only [List.mem_cons] at h
        rcases h with h | h | h
        · exact absurd h (by simp)
        · rw [Event.write.injEq] at h
          exact Or.inr h.1
        · simp at h
    · simp only [hres, hmeta] at h
      rcases List.mem_append.mp h with h | h
      · exact Or.inl (grobid_writes _ _ _ _ _ _ p s h).1
      · exact absurd h (sl_no_writes gsleep p s)
  · simp only [hres] at h
    exact Or.inl (grobid_writes _ _ _ _ _ _ p s h).1
  · simp only [hres] at h
    exact Or.inl (grobid_writes _ _ _ _ _ _ p s h).1

theorem runItems_writes (oracle : String → ℕ → Outcome) (gsleep : ℚ)
    (idir oroot : Path) :
    ∀ (l : List (ℕ × String)) (fs : FS) (p : Path) (s : String),
      Event.write p s ∈ (runItems oracle gsleep idir oroot l fs).2.1 →
        ∃ it ∈ l, p = teiPath oroot it.2 ∨ p = metaPath oroot it.2 := by
  intro l
  induction l with
  | nil => intro fs p s h; simp [runItems] at h
  | cons it rest ih =>
    intro fs p s h
    simp only [runItems, List.mem_append] at h
    rcases h with h | h
    · exact ⟨it, List.mem_cons_self _ _, itemStep_writes oracle gsleep idir oroot fs it p s h⟩
    · obtain ⟨it2, hmem, hor⟩ := ih _ p s h
      exact ⟨it2, List.mem_cons_of_mem _ hmem, hor⟩

theorem itemStep_meta_keep (oracle : String → ℕ → Outcome) (gsleep : ℚ)
    (idir oroot : Path) (fs : FS) (it : ℕ × String) (name : String) (c : String)
    (h : fs (metaPath oroot name) = some c) :
    (itemStep oracle gsleep idir oroot fs it).1 (metaPath oroot name) = some c := by
  have hfr : (grobid_process_fulltext (oracle it.2) (idir ++ [it.2])
      (teiPath oroot it.2) 3 5 fs).2.1 (metaPath oroot name) = some c := by
    simp only [grobid_process_fulltext]
    rw [grobidGo_frame (oracle it.2) (idir ++ [it.2]) (teiPath oroot it.2) 3 5
      (List.range' 1 3) fs (metaPath oroot name)
      (fun he => teiPath_ne_metaPath oroot it.2 name he.symm)]
    exact h
  simp only [itemStep]
  rcases hres : (grobid_process_fulltext (oracle it.2) (idir ++ [it.2])
      (teiPath oroot it.2) 3 5 fs).1 with _ | m | m
  · rcases hmeta : (grobid_process_fulltext (oracle it.2) (idir ++ [it.2])
        (teiPath oroot it.2) 3 5 fs).2.1 (metaPath oroot it.2) with _ | c2
    · simp only [hres, hmeta, setFS]
      by_cases hpq : metaPath oroot name = metaPath oroot it.2
      · rw [hpq] at hfr
        rw [hfr] at hmeta
        cases hmeta
      · rw [if_neg hpq]
        exact hfr
    · simp only [hres, hmeta]
      exact hfr
  · simp only [hres]
    exact hfr
  · simp only [hres]
    exact hfr

theorem runItems_meta_keep (oracle : String → ℕ → Outcome) (gsleep : ℚ)
    (idir oroot : Path) :
    ∀ (l : List (ℕ × String)) (fs : FS) (name : String) (c : String),
      fs (metaPath oroot name) = some c →
        (runItems oracle gsleep idir oroot l fs).1 (metaPath oroot name) = some c := by
  intro l
  induction l with
  | nil => intro fs name c h; simpa [runItems] using h
  | cons it rest ih =>
    intro fs name c h
    simp only [runItems]
    exact ih _ name c (itemStep_meta_keep oracle gsleep idir oroot fs it name c h)

theorem itemErr_none_iff (oracle : String → ℕ → Outcome) (it : ℕ × String) :
    itemErr oracle it = none ↔ grobidResult (oracle it.2) 3 = .ok := by
  simp only [itemErr]
  rcases h : grobidResult (oracle it.2) 3 with _ | m | m <;> simp

theorem itemStep_ok_tei (oracle : String → ℕ → Outcome) (gsleep : ℚ)
    (idir oroot : Path) (fs : FS) (it : ℕ × String)
    (h : (itemStep oracle gsleep idir oroot fs it).2.2 = none) :
    ∃ r, (oracle it.2 1 = .response r ∨ oracle it.2 2 = .response r ∨
        oracle it.2 3 = .response r) ∧ badTEI (pyStrip r) = false ∧
      (itemStep oracle gsleep idir oroot fs it).1 (teiPath oroot it.2) =
        some (pyStrip r) := by
  rw [itemStep_err] at h
  have hok : grobidResult (oracle it.2) 3 = .ok := (itemErr_none_iff oracle it).mp h
  have hres : (grobid_process_fulltext (oracle it.2) (idir ++ [it.2])
      (teiPath oroot it.2) 3 5 fs).1 = .ok := by
    rw [grobid_result_eq]
    exact hok
  obtain ⟨r, hor, hbad, hfs, _, _⟩ :=
    grobid3_ok (oracle it.2) (idir ++ [it.2]) (teiPath oroot it.2) 5 fs hres
  refine ⟨r, hor, hbad, ?_⟩
  simp only [itemStep]
  rcases hres2 : (grobid_process_fulltext (oracle it.2) (idir ++ [it.2])
      (teiPath oroot it.2) 3 5 fs).1 with _ | m | m
  · rcases hmeta : (grobid_process_fulltext (oracle it.2) (idir ++ [it.2])
        (teiPath oroot it.2) 3 5 fs).2.1 (metaPath oroot it.2) with _ | c
    · simp only [hres2, hmeta, setFS]
      rw [if_neg (teiPath_ne_metaPath oroot it.2 it.2)]
      exact hfs
    · simp only [hres2, hmeta]
      exact hfs
  · rw [hres2] at hres
    cases hres
  · rw [hres2] at hres
    cases hres

theorem itemStep_trace_ok (oracle : String → ℕ → Outcome) (gsleep : ℚ)
    (idir oroot : Path) (fs : FS) (it : ℕ × String)
    (h : (itemStep oracle gsleep idir oroot fs it).2.2 = none) :
    ∃ m, (itemStep oracle gsleep idir oroot fs it).2.1 =
      (grobid_process_fulltext (oracle it.2) (idir ++ [it.2])
          (teiPath oroot it.2) 3 5 fs).2.2 ++
        ((if 0 < gsleep then [Event.sleep gsleep] else []) ++ m) ∧
      ∀ d, Event.sleep d ∉ m := by
  simp only [itemStep] at h ⊢
  rcases hres2 : (grobid_process_fulltext (oracle it.2) (idir ++ [it.2])
      (teiPath oroot it.2) 3 5 fs).1 with _ | m | m
  · rcases hmeta : (grobid_process_fulltext (oracle it.2) (idir ++ [it.2])
        (teiPath oroot it.2) 3 5 fs).2.1 (metaPath oroot it.2) with _ | c
    · refine ⟨[Event.mkdirP (paperDir oroot it.2),
        Event.write (metaPath oroot it.2)
          (metaJson (stem it.2) (safe_title (stem it.2)) (pathStr (idir ++ [it.2])))], ?_, ?_⟩
      · simp [hres2, hmeta, List.append_assoc]
      · intro d
        simp
    · exact ⟨[], by simp [hres2, hmeta], by simp⟩
  · rw [hres2] at h
    simp at h
  · rw [hres2] at h
    simp at h

theorem itemStep_trace_fail (oracle : String → ℕ → Outcome) (gsleep : ℚ)
    (idir oroot : Path) (fs : FS) (it : ℕ × String)
    (h : (itemStep oracle gsleep idir oroot fs it).2.2 ≠ none) :
    (itemStep oracle gsleep idir oroot fs it).2.1 =
      (grobid_process_fulltext (oracle it.2) (idir ++ [it.2])
        (teiPath oroot it.2) 3 5 fs).2.2 := by
  simp only [itemStep] at h ⊢
  rcases hres2 : (grobid_process_fulltext (oracle it.2) (idir ++ [it.2])
      (teiPath oroot it.2) 3 5 fs).1 with _ | m | m
  · rcases hmeta : (grobid_process_fulltext (oracle it.2) (idir ++ [it.2])
        (teiPath oroot it.2) 3 5 fs).2.1 (metaPath oroot it.2) with _ | c
    · rw [hres2] at h
      simp [hmeta] at h
    · rw [hres2] at h
      simp [hmeta] at h
  · simp [hres2]
  · simp [hres2]

theorem snd_mem_of_mem_enumFrom {α : Type} {x : ℕ × α} {n : ℕ} {l : List α}
    (h : x ∈ List.enumFrom n l) : x.2 ∈ l := by
  induction l generalizing n with
  | nil => simp [List.enumFrom] at h
  | cons a tl ih =>
    simp only [List.enumFrom, List.mem_cons] at h
    rcases h with h | h
    · rw [h]
      exact List.mem_cons_self _ _
    · exact List.mem_cons_of_mem _ (ih h)

theorem parse_empty_eq (oracle : String → ℕ → Outcome) (gsleep : ℚ)
    (names : List String) (idir oroot : Path) (fs : FS)
    (he : sortNames (names.filter matchesPdf) = []) :
    parse_pdfs_directory oracle gsleep names idir oroot fs =
      (fs, [Event.mkdirP oroot]) := by
  simp only [parse_pdfs_directory]
  rw [if_pos (by simpa [List.isEmpty_iff] using he)]

theorem parse_eq (oracle : String → ℕ → Outcome) (gsleep : ℚ)
    (names : List String) (idir oroot : Path) (fs : FS)
    (hne : sortNames (names.filter matchesPdf) ≠ []) :
    (parse_pdfs_directory oracle gsleep names idir oroot fs).2 =
      Event.mkdirP oroot ::
        (runItems oracle gsleep idir oroot
          (List.enumFrom 1 (sortNames (names.filter matchesPdf))) fs).2.1 ++
        (if (runItems oracle gsleep idir oroot
              (List.enumFrom 1 (sortNames (names.filter matchesPdf)))
              fs).2.2.isEmpty
          then []
          else [Event.write (errLogPath oroot)
            (errorsJson (runItems oracle gsleep idir oroot
              (List.enumFrom 1 (sortNames (names.filter matchesPdf)))
              fs).2.2)]) ∧
    (parse_pdfs_directory oracle gsleep names idir oroot fs).1 =
      (if (runItems oracle gsleep idir oroot
            (List.enumFrom 1 (sortNames (names.filter matchesPdf)))
            fs).2.2.isEmpty
        then (runItems oracle gsleep idir oroot
          (List.enumFrom 1 (sortNames (names.filter matchesPdf))) fs).1
        else setFS (runItems oracle gsleep idir oroot
            (List.enumFrom 1 (sortNames (names.filter matchesPdf))) fs).1
          (errLogPath oroot)
          (errorsJson (runItems oracle gsleep idir oroot
            (List.enumFrom 1 (sortNames (names.filter matchesPdf)))
            fs).2.2)) := by
  simp only [parse_pdfs_directory]
  rw [if_neg (by simpa [List.isEmpty_iff] using hne)]
  cases herr : (runItems oracle gsleep idir oroot
      (List.enumFrom 1 (sortNames (names.filter matchesPdf)))
      fs).2.2.isEmpty <;> simp

/-- C1: for every PDF, `grobid_process_fulltext` makes at most `retries`
HTTP attempts; when every attempt fails with a network error, each failed
attempt k with k < retries is followed by a sleep of `backoff * k` before
the next attempt (linear backoff), and after the retries-th consecutive
network failure the call raises that last network error, leaving the file
system unchanged. -/
theorem C1_retry_linear_backoff (oracle : ℕ → Outcome) (pdf outp : Path)
    (retries : ℕ) (backoff : ℚ) (fs : FS) :
    numPosts (grobid_process_fulltext oracle pdf outp retries backoff fs).2.2 ≤
      retries ∧
    (∀ mlast, 1 ≤ retries →
      (∀ j, 1 ≤ j → j < retries → ∃ m, oracle j = Outcome.reqError m) →
      oracle retries = Outcome.reqError mlast →
      grobid_process_fulltext oracle pdf outp retries backoff fs =
        (PyResult.requestException mlast, fs,
          Event.mkdirP outp.dropLast ::
            (failTrail pdf backoff 1 (retries - 1) ++ [Event.post pdf]))) := by
  constructor
  · have h := grobidGo_posts_le oracle pdf outp retries backoff
      (List.range' 1 retries) fs
    rw [List.length_range'] at h
    simp only [numPosts] at h
    simp [grobid_process_fulltext, numPosts, List.countP_cons, isPost, h]
  · intro mlast hr hf hlast
    exact grobid_allFail oracle pdf outp retries backoff fs mlast hr hf hlast

/-- Witness for C1: two retries, every attempt a network error. -/
theorem C1_retry_linear_backoff_witness :
    numPosts (grobid_process_fulltext (fun _ => Outcome.reqError "err") ["p"]
      ["o", "t"] 2 5 fs0).2.2 ≤ 2 ∧
    grobid_process_fulltext (fun _ => Outcome.reqError "err") ["p"] ["o", "t"]
        2 5 fs0 =
      (PyResult.requestException "err", fs0,
        Event.mkdirP ["o"] ::
          (failTrail ["p"] 5 1 (2 - 1) ++ [Event.post ["p"]])) :=
  ⟨(C1_retry_linear_backoff (fun _ => Outcome.reqError "err") ["p"] ["o", "t"]
      2 5 fs0).1,
   (C1_retry_linear_backoff (fun _ => Outcome.reqError "err") ["p"] ["o", "t"]
      2 5 fs0).2 "err" (by decide) (fun j _ _ => ⟨"err", rfl⟩) rfl⟩

/-- C10: with retries = 0 the call returns normally, makes no HTTP request,
writes nothing, leaves the file system unchanged, and still creates the
parent directory of the output file. -/
theorem C10_zero_retries_noop (oracle : ℕ → Outcome) (pdf outp : Path)
    (backoff : ℚ) (fs : FS) :
    grobid_process_fulltext oracle pdf outp 0 backoff fs =
      (PyResult.ok, fs, [Event.mkdirP outp.dropLast]) ∧
    numPosts (grobid_process_fulltext oracle pdf outp 0 backoff fs).2.2 = 0 :=
  ⟨rfl, rfl⟩

/-- C9: every XML body written by `grobid_process_fulltext` goes to the
output path, is non-empty and contains the substring TEI-open-tag; and when
the attempt that gets a response finds it empty or lacking that substring
after stripping, the call ends in the ValueError, the file system is
unchanged, and no file write happens at all. -/
theorem C9_tei_sanity (oracle : ℕ → Outcome) (pdf outp : Path) (retries : ℕ)
    (backoff : ℚ) (fs : FS) :
    (∀ p s, Event.write p s ∈
        (grobid_process_fulltext oracle pdf outp retries backoff fs).2.2 →
      p = outp ∧ s ≠ "" ∧ "<TEI".data <:+: s.data) ∧
    (∀ a r, 1 ≤ a → a ≤ retries →
      (∀ j, 1 ≤ j → j < a → ∃ m, oracle j = Outcome.reqError m) →
      oracle a = Outcome.response r → badTEI (pyStrip r) = true →
      (grobid_process_fulltext oracle pdf outp retries backoff fs).1 =
        PyResult.valueError teiMsg ∧
      (grobid_process_fulltext oracle pdf outp retries backoff fs).2.1 = fs ∧
      ∀ p s, Event.write p s ∉
        (grobid_process_fulltext oracle pdf outp retries backoff fs).2.2) := by
  constructor
  · intro p s h
    obtain ⟨hp, hbad⟩ := grobid_writes oracle pdf outp retries backoff fs p s h
    exact ⟨hp, ((badTEI_eq_false s).mp hbad).1, ((badTEI_eq_false s).mp hbad).2⟩
  · intro a r h1 h2 hf hresp hbad
    have h := grobid_badStop oracle pdf outp retries backoff fs a r h1 h2 hf
      hresp hbad
    refine ⟨by rw [h], by rw [h], ?_⟩
    intro p s hmem
    rw [h] at hmem
    simp only [List.mem_cons, List.mem_append] at hmem
    rcases hmem with hmem | hmem | hmem
    · exact absurd hmem (by simp)
    · exact failTrail_no_writes pdf backoff (a - 1) 1 p s hmem
    · simp at hmem

/-- Witness for C9: a non-TEI response on the first attempt. -/
theorem C9_tei_sanity_witness :
    (grobid_process_fulltext (fun _ => Outcome.response "nope") ["p"]
      ["o", "t"] 3 5 fs0).1 = PyResult.valueError teiMsg ∧
    (grobid_process_fulltext (fun _ => Outcome.response "nope") ["p"]
      ["o", "t"] 3 5 fs0).2.1 = fs0 ∧
    ∀ p s, Event.write p s ∉
      (grobid_process_fulltext (fun _ => Outcome.response "nope") ["p"]
        ["o", "t"] 3 5 fs0).2.2 :=
  (C9_tei_sanity (fun _ => Outcome.response "nope") ["p"] ["o", "t"] 3 5
    fs0).2 1 "nope" (by decide) (by decide)
    (fun j _ hj2 => absurd hj2 (by omega)) rfl (by decide)

/-- C2: a failure that is not a network error — the ValueError raised on a
bad response body — aborts the item at that very attempt with no further
retries; at run level a failing item is recorded, with its index, folder
name and exception repr, in grobid_errors_local.json written under the
output root at the end of the run. -/
theorem C2_nonnetwork_abort_logged :
    (∀ (oracle : ℕ → Outcome) (pdf outp : Path) (retries : ℕ) (backoff : ℚ)
      (fs : FS) (a : ℕ) (r : String), 1 ≤ a → a ≤ retries →
      (∀ j, 1 ≤ j → j < a → ∃ m, oracle j = Outcome.reqError m) →
      oracle a = Outcome.response r → badTEI (pyStrip r) = true →
      grobid_process_fulltext oracle pdf outp retries backoff fs =
        (PyResult.valueError teiMsg, fs,
          Event.mkdirP outp.dropLast ::
            (failTrail pdf backoff 1 (a - 1) ++ [Event.post pdf])) ∧
      numPosts (grobid_process_fulltext oracle pdf outp retries backoff fs).2.2
        = a) ∧
    (∀ (oracle : String → ℕ → Outcome) (gsleep : ℚ) (names : List String)
      (idir oroot : Path) (fs : FS) (idx : ℕ) (name : String) (m : String),
      (idx, name) ∈ List.enumFrom 1 (sortNames (names.filter matchesPdf)) →
      grobidResult (oracle name) 3 = PyResult.valueError m →
      (idx, stem name, reprExn (PyResult.valueError m)) ∈
        (runItems oracle gsleep idir oroot
          (List.enumFrom 1 (sortNames (names.filter matchesPdf))) fs).2.2 ∧
      (parse_pdfs_directory oracle gsleep names idir oroot fs).1
          (errLogPath oroot) =
        some (errorsJson (runItems oracle gsleep idir oroot
          (List.enumFrom 1 (sortNames (names.filter matchesPdf))) fs).2.2)) := by
  constructor
  · intro oracle pdf outp retries backoff fs a r h1 h2 hf hresp hbad
    have h := grobid_badStop oracle pdf outp retries backoff fs a r h1 h2 hf
      hresp hbad
    refine ⟨h, ?_⟩
    rw [h]
    have hft := failTrail_numPosts pdf backoff (a - 1) 1
    simp only [numPosts] at hft
    simp [numPosts, List.countP_cons, List.countP_append, isPost, hft]
    omega
  · intro oracle gsleep names idir oroot fs idx name m hmem hres
    have hentry : itemErr oracle (idx, name) =
        some (idx, stem name, reprExn (PyResult.valueError m)) := by
      simp [itemErr, hres]
    have hmem2 : (idx, stem name, reprExn (PyResult.valueError m)) ∈
        (runItems oracle gsleep idir oroot
          (List.enumFrom 1 (sortNames (names.filter matchesPdf))) fs).2.2 := by
      rw [runItems_errs]
      exact List.mem_filterMap.mpr ⟨(idx, name), hmem, hentry⟩
    refine ⟨hmem2, ?_⟩
    have hpdfs : sortNames (names.filter matchesPdf) ≠ [] := by
      intro h0
      rw [h0] at hmem
      simp [List.enumFrom] at hmem
    have herrs : (runItems oracle gsleep idir oroot
        (List.enumFrom 1 (sortNames (names.filter matchesPdf))) fs).2.2 ≠ [] := by
      intro h0
      rw [h0] at hmem2
      simp at hmem2
    simp only [parse_pdfs_directory]
    rw [if_neg (by simpa [List.isEmpty_iff] using hpdfs)]
    rw [if_neg (by simpa [List.isEmpty_iff] using herrs)]
    simp [setFS]

/-- Witness for C2: one input whose response body fails the TEI check. -/
theorem C2_nonnetwork_abort_logged_witness :
    (grobid_process_fulltext (fun _ => Outcome.response "nope") ["p"]
        ["o", "t"] 3 5 fs0 =
      (PyResult.valueError teiMsg, fs0,
        Event.mkdirP ["o"] ::
          (failTrail ["p"] 5 1 (1 - 1) ++ [Event.post ["p"]])) ∧
      numPosts (grobid_process_fulltext (fun _ => Outcome.response "nope")
        ["p"] ["o", "t"] 3 5 fs0).2.2 = 1) ∧
    ((1, stem "a.pdf", reprExn (PyResult.valueError teiMsg)) ∈
      (runItems mixedOracle 0 ["in"] ["out"]
        (List.enumFrom 1 (sortNames (["a.pdf"].filter matchesPdf))) fs0).2.2 ∧
    (parse_pdfs_directory mixedOracle 0 ["a.pdf"] ["in"] ["out"] fs0).1
        (errLogPath ["out"]) =
      some (errorsJson (runItems mixedOracle 0 ["in"] ["out"]
        (List.enumFrom 1 (sortNames (["a.pdf"].filter matchesPdf))) fs0).2.2)) :=
  ⟨C2_nonnetwork_abort_logged.1 (fun _ => Outcome.response "nope") ["p"]
      ["o", "t"] 3 5 fs0 1 "nope" (by decide) (by decide)
      (fun j _ hj2 => absurd hj2 (by omega)) rfl (by decide),
   C2_nonnetwork_abort_logged.2 mixedOracle 0 ["a.pdf"] ["in"] ["out"] fs0
      1 "a.pdf" teiMsg (by decide) (by decide)⟩

/-- C3 counterexample: one input PDF whose first attempt hits a network
error and whose second attempt succeeds; the run performs two HTTP POSTs
for that single item, refuting the claim of at most one outbound call per
item. -/
theorem C3_counterexample :
    1 < numPosts (parse_pdfs_directory retryOracle 0 ["a.pdf"] ["in"] ["out"]
      fs0).2 := by
  decide

/-- C3 amended: for every input PDF processed by the driver, at most
`retries` = 3 outbound HTTP POSTs are made for that item — one per retry
attempt — rather than at most one. -/
theorem C3_at_most_retries_posts (oracle : String → ℕ → Outcome) (gsleep : ℚ)
    (idir oroot : Path) (fs : FS) (it : ℕ × String) :
    numPosts (itemStep oracle gsleep idir oroot fs it).2.1 ≤ 3 := by
  have hg : numPosts (grobid_process_fulltext (oracle it.2) (idir ++ [it.2])
      (teiPath oroot it.2) 3 5 fs).2.2 ≤ 3 := by
    have h := grobidGo_posts_le (oracle it.2) (idir ++ [it.2])
      (teiPath oroot it.2) 3 5 (List.range' 1 3) fs
    rw [List.length_range'] at h
    simp only [numPosts] at h
    simp [grobid_process_fulltext, numPosts, List.countP_cons, isPost, h]
  have hsl : numPosts (if 0 < gsleep then [Event.sleep gsleep] else []) = 0 := by
    split_ifs <;> simp [numPosts, isPost]
  simp only [numPosts] at hg hsl
  simp only [itemStep]
  rcases hres : (grobid_process_fulltext (oracle it.2) (idir ++ [it.2])
      (teiPath oroot it.2) 3 5 fs).1 with _ | m | m
  · rcases hmeta : (grobid_process_fulltext (oracle it.2) (idir ++ [it.2])
        (teiPath oroot it.2) 3 5 fs).2.1 (metaPath oroot it.2) with _ | c
    · simp only [hres, hmeta, numPosts, List.countP_append, List.countP_cons,
        isPost, hsl]
      simp
      omega
    · simp only [hres, hmeta, numPosts, List.countP_append, hsl]
      omega
  · simp only [hres, numPosts]
    exact hg
  · simp only [hres, numPosts]
    exact hg

/-- C4 counterexample: the distinct input names ".pdf" and ".pdf.pdf" both
match the glob and have the same stem ".pdf", so they share the same output
folder and even the same TEI file path; in a run over both, the body of the
second item overwrites that of the first at the shared path. -/
theorem C4_counterexample :
    (".pdf" : String) ≠ ".pdf.pdf" ∧
    matchesPdf ".pdf" = true ∧ matchesPdf ".pdf.pdf" = true ∧
    paperDir ["out"] ".pdf" = paperDir ["out"] ".pdf.pdf" ∧
    teiPath ["out"] ".pdf" = teiPath ["out"] ".pdf.pdf" ∧
    (parse_pdfs_directory namedOracle 0 [".pdf", ".pdf.pdf"] ["in"] ["out"]
        fs0).1 (teiPath ["out"] ".pdf") = some "<TEI>B</TEI>" := by
  decide

/-- C4 amended: each successfully processed input gets the output folder
output_root slash stem, holding its TEI file and meta.json; inputs with
distinct stems never share a folder, but distinct names with equal stems,
such as ".pdf" and ".pdf.pdf", do share one. -/
theorem C4_output_folders (oracle : String → ℕ → Outcome) (gsleep : ℚ)
    (idir oroot : Path) (fs : FS) (it : ℕ × String) :
    (∀ a b : String, stem a ≠ stem b → paperDir oroot a ≠ paperDir oroot b) ∧
    teiPath oroot it.2 = paperDir oroot it.2 ++ [stem it.2 ++ ".tei.xml"] ∧
    metaPath oroot it.2 = paperDir oroot it.2 ++ ["meta.json"] ∧
    ((itemStep oracle gsleep idir oroot fs it).2.2 = none →
      fs (metaPath oroot it.2) = none →
      (∃ t, (itemStep oracle gsleep idir oroot fs it).1 (teiPath oroot it.2) =
        some t) ∧
      (itemStep oracle gsleep idir oroot fs it).1 (metaPath oroot it.2) =
        some (metaJson (stem it.2) (safe_title (stem it.2))
          (pathStr (idir ++ [it.2])))) := by
  refine ⟨?_, rfl, rfl, ?_⟩
  · intro a b hab hcontra
    apply hab
    have h2 := List.append_cancel_left (hcontra : oroot ++ [stem a] = oroot ++ [stem b])
    simpa using h2
  · intro hnone hmeta0
    constructor
    · obtain ⟨r, _, _, hfs⟩ := itemStep_ok_tei oracle gsleep idir oroot fs it hnone
      exact ⟨pyStrip r, hfs⟩
    · have hnone2 := hnone
      rw [itemStep_err] at hnone2
      have hok := (itemErr_none_iff oracle it).mp hnone2
      have hres : (grobid_process_fulltext (oracle it.2) (idir ++ [it.2])
          (teiPath oroot it.2) 3 5 fs).1 = .ok := by
        rw [grobid_result_eq]
        exact hok
      have hfr : (grobid_process_fulltext (oracle it.2) (idir ++ [it.2])
          (teiPath oroot it.2) 3 5 fs).2.1 (metaPath oroot it.2) = none := by
        simp only [grobid_process_fulltext]
        rw [grobidGo_frame (oracle it.2) (idir ++ [it.2]) (teiPath oroot it.2)
          3 5 (List.range' 1 3) fs (metaPath oroot it.2)
          (fun he => teiPath_ne_metaPath oroot it.2 it.2 he.symm)]
        exact hmeta0
      simp [itemStep, hres, hfr, setFS]

/-- Witness for C4 amended: one successfully parsed input with no prior
metadata gets both files under its folder. -/
theorem C4_output_folders_witness :
    (∃ t, (itemStep namedOracle 0 ["in"] ["out"] fs0 (1, "a.pdf")).1
      (teiPath ["out"] "a.pdf") = some t) ∧
    (itemStep namedOracle 0 ["in"] ["out"] fs0 (1, "a.pdf")).1
        (metaPath ["out"] "a.pdf") =
      some (metaJson (stem "a.pdf") (safe_title (stem "a.pdf"))
        (pathStr (["in"] ++ ["a.pdf"]))) :=
  (C4_output_folders namedOracle 0 ["in"] ["out"] fs0 (1, "a.pdf")).2.2.2
    (by decide) rfl

/-- C5: the driver runs one linear pipeline: it makes the output root, then
processes the enumerated sorted inputs strictly one at a time, the whole
trace being the concatenation of the per-item traces in that order; within
each item every file write is preceded by an HTTP POST of that item; and
the error log write, when it happens, comes after all item events. -/
theorem C5_linear_pipeline (oracle : String → ℕ → Outcome) (gsleep : ℚ)
    (names : List String) (idir oroot : Path) (fs : FS)
    (hne : sortNames (names.filter matchesPdf) ≠ []) :
    (parse_pdfs_directory oracle gsleep names idir oroot fs).2 =
      Event.mkdirP oroot ::
        (itemTraces oracle gsleep idir oroot
          (List.enumFrom 1 (sortNames (names.filter matchesPdf))) fs).flatten ++
        (if (runItems oracle gsleep idir oroot
              (List.enumFrom 1 (sortNames (names.filter matchesPdf)))
              fs).2.2.isEmpty
          then []
          else [Event.write (errLogPath oroot)
            (errorsJson (runItems oracle gsleep idir oroot
              (List.enumFrom 1 (sortNames (names.filter matchesPdf)))
              fs).2.2)]) ∧
    ∀ tr ∈ itemTraces oracle gsleep idir oroot
        (List.enumFrom 1 (sortNames (names.filter matchesPdf))) fs,
      postsBeforeWrites tr := by
  constructor
  · rw [(parse_eq oracle gsleep names idir oroot fs hne).1,
      runItems_trace oracle gsleep idir oroot]
  · intro tr htr
    exact itemTraces_pbw oracle gsleep idir oroot _ fs tr htr

/-- Witness for C5: two inputs, the first failing the TEI check. -/
theorem C5_linear_pipeline_witness :
    (parse_pdfs_directory mixedOracle 1 ["a.pdf", "b.pdf"] ["in"] ["out"]
        fs0).2 =
      Event.mkdirP ["out"] ::
        (itemTraces mixedOracle 1 ["in"] ["out"]
          (List.enumFrom 1 (sortNames (["a.pdf", "b.pdf"].filter matchesPdf)))
          fs0).flatten ++
        (if (runItems mixedOracle 1 ["in"] ["out"]
              (List.enumFrom 1 (sortNames (["a.pdf", "b.pdf"].filter
                matchesPdf))) fs0).2.2.isEmpty
          then []
          else [Event.write (errLogPath ["out"])
            (errorsJson (runItems mixedOracle 1 ["in"] ["out"]
              (List.enumFrom 1 (sortNames (["a.pdf", "b.pdf"].filter
                matchesPdf))) fs0).2.2)]) ∧
    ∀ tr ∈ itemTraces mixedOracle 1 ["in"] ["out"]
        (List.enumFrom 1 (sortNames (["a.pdf", "b.pdf"].filter matchesPdf)))
        fs0,
      postsBeforeWrites tr :=
  C5_linear_pipeline mixedOracle 1 ["a.pdf", "b.pdf"] ["in"] ["out"] fs0
    (by decide)

/-- C6 counterexample: with GROBID_SLEEP = 1 greater than zero and a first
item that fails the TEI sanity check, no sleep event at all occurs between
the first item and the call of the second item, refuting the stated if and
only if. -/
theorem C6_counterexample :
    (0 : ℚ) < 1 ∧
    Event.post ["in", "b.pdf"] ∈
      (parse_pdfs_directory mixedOracle 1 ["a.pdf", "b.pdf"] ["in"] ["out"]
        fs0).2 ∧
    Event.sleep 1 ∉
      ((parse_pdfs_directory mixedOracle 1 ["a.pdf", "b.pdf"] ["in"] ["out"]
        fs0).2.takeWhile fun e => decide (e ≠ Event.post ["in", "b.pdf"])) := by
  refine ⟨by decide, by decide, by decide⟩

/-- C6 amended: after an item whose processing succeeds, a single sleep of
exactly GROBID_SLEEP follows its service events if and only if
GROBID_SLEEP is positive, and the remaining item events contain no sleep;
after an item that fails, the item contributes its service events only, with
no inter-item sleep. -/
theorem C6_sleep_iff_positive (oracle : String → ℕ → Outcome) (gsleep : ℚ)
    (idir oroot : Path) (fs : FS) (it : ℕ × String) :
    ((itemStep oracle gsleep idir oroot fs it).2.2 = none →
      ∃ m, (itemStep oracle gsleep idir oroot fs it).2.1 =
        (grobid_process_fulltext (oracle it.2) (idir ++ [it.2])
            (teiPath oroot it.2) 3 5 fs).2.2 ++
          ((if 0 < gsleep then [Event.sleep gsleep] else []) ++ m) ∧
        ∀ d, Event.sleep d ∉ m) ∧
    ((itemStep oracle gsleep idir oroot fs it).2.2 ≠ none →
      (itemStep oracle gsleep idir oroot fs it).2.1 =
        (grobid_process_fulltext (oracle it.2) (idir ++ [it.2])
          (teiPath oroot it.2) 3 5 fs).2.2) :=
  ⟨itemStep_trace_ok oracle gsleep idir oroot fs it,
   itemStep_trace_fail oracle gsleep idir oroot fs it⟩

/-- Witness for C6 amended: a successful item with GROBID_SLEEP = 1. -/
theorem C6_sleep_iff_positive_witness :
    ∃ m, (itemStep namedOracle 1 ["in"] ["out"] fs0 (1, "b.pdf")).2.1 =
      (grobid_process_fulltext (namedOracle "b.pdf") (["in"] ++ ["b.pdf"])
          (teiPath ["out"] "b.pdf") 3 5 fs0).2.2 ++
        ((if (0 : ℚ) < 1 then [Event.sleep 1] else []) ++ m) ∧
      ∀ d, Event.sleep d ∉ m :=
  (C6_sleep_iff_positive namedOracle 1 ["in"] ["out"] fs0 (1, "b.pdf")).1
    (by decide)

/-- C7: the only files a run writes are the per-paper TEI XML files, the
per-paper meta.json files, and the error log under the output root; and
when no item failed, the error log is not written at all. -/
theorem C7_only_known_files (oracle : String → ℕ → Outcome) (gsleep : ℚ)
    (names : List String) (idir oroot : Path) (fs : FS) :
    (∀ p s, Event.write p s ∈
        (parse_pdfs_directory oracle gsleep names idir oroot fs).2 →
      (∃ name ∈ sortNames (names.filter matchesPdf),
        p = teiPath oroot name ∨ p = metaPath oroot name) ∨
        p = errLogPath oroot) ∧
    ((runItems oracle gsleep idir oroot
        (List.enumFrom 1 (sortNames (names.filter matchesPdf))) fs).2.2 = [] →
      ∀ s, Event.write (errLogPath oroot) s ∉
        (parse_pdfs_directory oracle gsleep names idir oroot fs).2) := by
  have hrw : ∀ p s, Event.write p s ∈ (runItems oracle gsleep idir oroot
      (List.enumFrom 1 (sortNames (names.filter matchesPdf))) fs).2.1 →
      ∃ name ∈ sortNames (names.filter matchesPdf),
        p = teiPath oroot name ∨ p = metaPath oroot name := by
    intro p s h
    obtain ⟨it, hit, hor⟩ := runItems_writes oracle gsleep idir oroot _ fs p s h
    exact ⟨it.2, snd_mem_of_mem_enumFrom hit, hor⟩
  constructor
  · intro p s h
    by_cases hpd : sortNames (names.filter matchesPdf) = []
    · rw [parse_empty_eq oracle gsleep names idir oroot fs hpd] at h
      simp at h
    · rw [(parse_eq oracle gsleep names idir oroot fs hpd).1] at h
      simp only [List.cons_append, List.mem_cons, List.mem_append] at h
      rcases h with h | h | h
      · exact absurd h (by simp)
      · exact Or.inl (hrw p s h)
      · split_ifs at h
        · simp at h
        · simp only [List.mem_singleton, Event.write.injEq] at h
          exact Or.inr h.1
  · intro h0 s hmem
    by_cases hpd : sortNames (names.filter matchesPdf) = []
    · rw [parse_empty_eq oracle gsleep names idir oroot fs hpd] at hmem
      simp at hmem
    · rw [(parse_eq oracle gsleep names idir oroot fs hpd).1,
        if_pos (by simp [h0] : (runItems oracle gsleep idir oroot
          (List.enumFrom 1 (sortNames (names.filter matchesPdf)))
          fs).2.2.isEmpty = true)] at hmem
      simp only [List.append_nil, List.mem_cons] at hmem
      rcases hmem with hmem | hmem
      · exact absurd hmem (by simp)
      · obtain ⟨name, _, hor⟩ := hrw (errLogPath oroot) s hmem
        rcases hor with hor | hor
        · exact teiPath_ne_errLogPath oroot name hor.symm
        · exact metaPath_ne_errLogPath oroot name hor.symm

/-- Witness for C7: a successful single-item run; its TEI write hits a
known path. -/
theorem C7_only_known_files_witness :
    (∃ name ∈ sortNames (["a.pdf"].filter matchesPdf),
      teiPath ["out"] "a.pdf" = teiPath ["out"] name ∨
      teiPath ["out"] "a.pdf" = metaPath ["out"] name) ∨
      teiPath ["out"] "a.pdf" = errLogPath ["out"] :=
  (C7_only_known_files namedOracle 0 ["a.pdf"] ["in"] ["out"] fs0).1
    (teiPath ["out"] "a.pdf") "<TEI>B</TEI>" (by decide)

/-- C8: a meta.json already present before the run keeps its contents
unchanged, while the TEI file of a successfully processed item is rewritten
with the freshly received response body regardless of what was on disk. -/
theorem C8_meta_kept_tei_rewritten (oracle : String → ℕ → Outcome)
    (gsleep : ℚ) (names : List String) (idir oroot : Path) (fs : FS) :
    (∀ name c, fs (metaPath oroot name) = some c →
      (parse_pdfs_directory oracle gsleep names idir oroot fs).1
        (metaPath oroot name) = some c) ∧
    (∀ (fs2 : FS) (it : ℕ × String),
      (itemStep oracle gsleep idir oroot fs2 it).2.2 = none →
      ∃ r, (oracle it.2 1 = Outcome.response r ∨
          oracle it.2 2 = Outcome.response r ∨
          oracle it.2 3 = Outcome.response r) ∧
        (itemStep oracle gsleep idir oroot fs2 it).1 (teiPath oroot it.2) =
          some (pyStrip r)) := by
  constructor
  · intro name c h
    by_cases hpd : sortNames (names.filter matchesPdf) = []
    · rw [parse_empty_eq oracle gsleep names idir oroot fs hpd]
      exact h
    · rw [(parse_eq oracle gsleep names idir oroot fs hpd).2]
      have hk := runItems_meta_keep oracle gsleep idir oroot
        (List.enumFrom 1 (sortNames (names.filter matchesPdf))) fs name c h
      split_ifs
      · exact hk
      · simp only [setFS]
        rw [if_neg (metaPath_ne_errLogPath oroot name)]
        exact hk
  · intro fs2 it h
    obtain ⟨r, hor, _, hfs⟩ := itemStep_ok_tei oracle gsleep idir oroot fs2 it h
    exact ⟨r, hor, hfs⟩

/-- Witness for C8: a run over one input with pre-existing metadata keeps
it; a successful item rewrites its TEI file. -/
theorem C8_meta_kept_tei_rewritten_witness :
    (parse_pdfs_directory namedOracle 0 ["a.pdf"] ["in"] ["out"]
        (setFS fs0 (metaPath ["out"] "a.pdf") "old")).1
      (metaPath ["out"] "a.pdf") = some "old" ∧
    ∃ r, (namedOracle "a.pdf" 1 = Outcome.response r ∨
        namedOracle "a.pdf" 2 = Outcome.response r ∨
        namedOracle "a.pdf" 3 = Outcome.response r) ∧
      (itemStep namedOracle 0 ["in"] ["out"] fs0 (1, "a.pdf")).1
        (teiPath ["out"] "a.pdf") = some (pyStrip r) :=
  ⟨(C8_meta_kept_tei_rewritten namedOracle 0 ["a.pdf"] ["in"] ["out"]
      (setFS fs0 (metaPath ["out"] "a.pdf") "old")).1 "a.pdf" "old" (by decide),
   (C8_meta_kept_tei_rewritten namedOracle 0 ["a.pdf"] ["in"] ["out"] fs0).2
      fs0 (1, "a.pdf") (by decide)⟩

end Grobid
